import Mathlib

/-!
Verification of the macaroon library (src/lib.rs, src/util.rs).

The library is generic over a MAC primitive `M : Mac + KeyInit` and a caveat
type `C : Serialize` (optionally `Caveat` for verification).  We embed it
shallowly:

* byte strings (`&[u8]`, `Vec<u8>`, `GenericArray<u8, _>`) become `Bytes`,
  lists of naturals;
* the MAC primitive `MacHelper::process` (lib.rs lines 17-29) becomes an
  explicit function parameter `mac : Bytes → Bytes → Bytes`;
* the canonical JSON encoding `canonical_json::to_string(&json!(c)).into_bytes()`
  used by `attenuate` and `verify` becomes an explicit function parameter
  `enc : C → Bytes`;
* the `Caveat::verify` trait method becomes an explicit function parameter
  `vf : C → Ctx → Except E Unit` mirroring `fn verify(&self, ctx) → Result<(), E>`;
* the token identifier is a `String` in Rust; the MAC only ever consumes its
  UTF-8 bytes (`id.as_ref()` in `new`, `self.0.as_bytes()` in `verify`), so we
  model it directly as the byte string `id : Bytes`.
-/

namespace Rustmacaroon

/-- Byte strings: `&[u8]` / `Vec<u8>` / `GenericArray<u8, N>`. -/
abbrev Bytes : Type := List Nat

/-- The MAC primitive, `MacHelper::process(key, data)` (lib.rs 17-29). -/
abbrev MacFn : Type := Bytes → Bytes → Bytes

/-- `struct Macaroon<C, M>(String, Vec<C>, GenericArray<u8, OutputSize>)`
(lib.rs 48-60): identifier, ordered caveat list, current signature. -/
structure Macaroon (C : Type) where
  id : Bytes
  caveats : List C
  sig : Bytes

/-- `enum VerificationError<C>` (lib.rs 217-228). -/
inductive VerificationError (E : Type) where
  | CaveatFailed (e : E)
  | InvalidToken
deriving DecidableEq

variable {C D Ctx E : Type}

/-- `Macaroon::new(id, key)` (lib.rs 176-186): identifier, empty caveat list,
signature `M::process(key, id)`. -/
def Macaroon.new (mac : MacFn) (id key : Bytes) : Macaroon C :=
  ⟨id, [], mac key id⟩

/-- `Macaroon::attenuate(self, caveat)` (lib.rs 68-78): the new signature is
`M::process(old signature, encode(caveat))`, then the caveat is pushed. -/
def Macaroon.attenuate (mac : MacFn) (enc : C → Bytes) (m : Macaroon C) (c : C) :
    Macaroon C :=
  ⟨m.id, m.caveats ++ [c], mac m.sig (enc c)⟩

/-- The expected-signature fold of `Macaroon::verify` (lib.rs 194-203):
`iter::once(id bytes).chain(caveats.map(encode)).fold(key, process)`.
It reads only the key, the identifier and the caveat list, never the stored
signature. -/
def chainSig (mac : MacFn) (enc : C → Bytes) (key id : Bytes) (cs : List C) : Bytes :=
  (id :: cs.map enc).foldl mac key

/-- `self.1.iter().try_for_each(|caveat| caveat.verify(ctx))` (lib.rs 209-211):
evaluate caveats in storage order, stopping at the first error. -/
def tryForEach (vf : C → Ctx → Except E Unit) (ctx : Ctx) : List C → Except E Unit
  | [] => .ok ()
  | c :: rest =>
    match vf c ctx with
    | .ok _ => tryForEach vf ctx rest
    | .error e => .error e

/-- Instrumented form of the same `try_for_each` loop: additionally returns,
in order, the caveats on which `Caveat::verify` was invoked. -/
def runCaveats (vf : C → Ctx → Except E Unit) (ctx : Ctx) : List C → List C × Except E Unit
  | [] => ([], .ok ())
  | c :: rest =>
    match vf c ctx with
    | .ok _ =>
      let r := runCaveats vf ctx rest
      (c :: r.1, r.2)
    | .error e => ([c], .error e)

/-- `Macaroon::verify(key, ctx)` (lib.rs 190-213): recompute the expected
signature, return `InvalidToken` on mismatch, otherwise run each caveat in
order, mapping the first caveat error into `CaveatFailed`. -/
def Macaroon.verify (mac : MacFn) (enc : C → Bytes) (vf : C → Ctx → Except E Unit)
    (m : Macaroon C) (key : Bytes) (ctx : Ctx) : Except (VerificationError E) Unit :=
  let expected := chainSig mac enc key m.id m.caveats
  if expected ≠ m.sig then .error .InvalidToken
  else
    match tryForEach vf ctx m.caveats with
    | .ok _ => .ok ()
    | .error e => .error (.CaveatFailed e)

/-- Instrumented `verify`: same result, together with the ordered list of
caveats whose `Caveat::verify` was invoked. -/
def Macaroon.verifyT (mac : MacFn) (enc : C → Bytes) (vf : C → Ctx → Except E Unit)
    (m : Macaroon C) (key : Bytes) (ctx : Ctx) :
    List C × Except (VerificationError E) Unit :=
  let expected := chainSig mac enc key m.id m.caveats
  if expected ≠ m.sig then ([], .error .InvalidToken)
  else
    let r := runCaveats vf ctx m.caveats
    (r.1,
      match r.2 with
      | .ok _ => .ok ()
      | .error e => .error (.CaveatFailed e))

/-- A token built by `new(id, key)` followed by attenuations with `cs`, in
order. -/
def buildToken (mac : MacFn) (enc : C → Bytes) (id key : Bytes) (cs : List C) :
    Macaroon C :=
  cs.foldl (Macaroon.attenuate mac enc) (Macaroon.new mac id key)

/-! ## Basic lemmas about the chain fold -/

theorem runCaveats_snd_eq (vf : C → Ctx → Except E Unit) (ctx : Ctx) (cs : List C) :
    (runCaveats vf ctx cs).2 = tryForEach vf ctx cs := by
  induction cs with
  | nil => rfl
  | cons c rest ih =>
    simp only [runCaveats, tryForEach]
    cases vf c ctx with
    | ok u => simpa using ih
    | error e => rfl

theorem verifyT_snd_eq (mac : MacFn) (enc : C → Bytes) (vf : C → Ctx → Except E Unit)
    (m : Macaroon C) (key : Bytes) (ctx : Ctx) :
    (m.verifyT mac enc vf key ctx).2 = m.verify mac enc vf key ctx := by
  simp only [Macaroon.verifyT, Macaroon.verify]
  by_cases h : chainSig mac enc key m.id m.caveats ≠ m.sig
  · simp [h]
  · simp [h, runCaveats_snd_eq]

theorem chainSig_append_one (mac : MacFn) (enc : C → Bytes) (key id : Bytes)
    (cs : List C) (c : C) :
    chainSig mac enc key id (cs ++ [c]) = mac (chainSig mac enc key id cs) (enc c) := by
  simp [chainSig, List.foldl_append]

theorem foldl_attenuate (mac : MacFn) (enc : C → Bytes) (m : Macaroon C) (cs : List C) :
    cs.foldl (Macaroon.attenuate mac enc) m =
      ⟨m.id, m.caveats ++ cs, (cs.map enc).foldl mac m.sig⟩ := by
  induction cs generalizing m with
  | nil => simp
  | cons c rest ih => simp [Macaroon.attenuate, ih]

theorem buildToken_def (mac : MacFn) (enc : C → Bytes) (id key : Bytes) (cs : List C) :
    buildToken mac enc id key cs = ⟨id, cs, chainSig mac enc key id cs⟩ := by
  simp [buildToken, foldl_attenuate, Macaroon.new, chainSig]

/-- Claim C1: a token created by `new(id, K)` and attenuated with caveats
`c_1..c_n` stores exactly the chain fold `t_0 = mac(K, id)`,
`t_i = mac(t_(i-1), encode(c_i))`, and each `attenuate` extends the chain by a
single MAC step over the previous stored signature, never recomputing earlier
tags. -/
theorem sig_is_chain_fold (mac : MacFn) (enc : C → Bytes) (id key : Bytes)
    (cs : List C) (m : Macaroon C) (c : C) :
    (buildToken mac enc id key cs).sig = chainSig mac enc key id cs ∧
    (buildToken mac enc id key cs).caveats = cs ∧
    (buildToken mac enc id key cs).id = id ∧
    (@Macaroon.new C mac id key).sig = mac key id ∧
    (m.attenuate mac enc c).sig = mac m.sig (enc c) ∧
    (m.attenuate mac enc c).caveats = m.caveats ++ [c] := by
  refine ⟨?_, ?_, ?_, rfl, rfl, rfl⟩ <;> simp [buildToken_def]

/-- Claim C10: a freshly created token with no caveats verifies successfully
under its creation key: the zero-caveat fold is the single tag `mac(K, id)`,
which is exactly the stored signature, and there are no caveats to check. -/
theorem new_verifies_ok (mac : MacFn) (enc : C → Bytes) (vf : C → Ctx → Except E Unit)
    (id key : Bytes) (ctx : Ctx) :
    (@Macaroon.new C mac id key).verify mac enc vf key ctx = .ok () := by
  simp [Macaroon.verify, Macaroon.new, chainSig, tryForEach]

/-! ## Signature-mismatch behaviour -/

theorem verify_of_sig_ne (mac : MacFn) (enc : C → Bytes) (vf : C → Ctx → Except E Unit)
    (m : Macaroon C) (key : Bytes) (ctx : Ctx)
    (h : chainSig mac enc key m.id m.caveats ≠ m.sig) :
    m.verify mac enc vf key ctx = .error .InvalidToken ∧
    m.verifyT mac enc vf key ctx = ([], .error .InvalidToken) := by
  constructor
  · simp [Macaroon.verify, h]
  · simp [Macaroon.verifyT, h]

/-- Claim C2: `verify` recomputes the expected signature as the chain fold of
the key, the identifier and the caveat list only (the stored signature does
not enter the recomputation), and on mismatch it returns `InvalidToken`
without invoking any caveat: the instrumented run records no caveat
evaluation. -/
theorem mismatch_rejects_before_caveats (mac : MacFn) (enc : C → Bytes)
    (vf : C → Ctx → Except E Unit) (m : Macaroon C) (key : Bytes) (ctx : Ctx)
    (h : chainSig mac enc key m.id m.caveats ≠ m.sig) :
    m.verify mac enc vf key ctx = .error .InvalidToken ∧
    m.verifyT mac enc vf key ctx = ([], .error .InvalidToken) ∧
    ∀ s : Bytes, chainSig mac enc key (Macaroon.mk m.id m.caveats s).id
        (Macaroon.mk m.id m.caveats s).caveats
      = chainSig mac enc key m.id m.caveats := by
  obtain ⟨h1, h2⟩ := verify_of_sig_ne mac enc vf m key ctx h
  exact ⟨h1, h2, fun _ => rfl⟩

theorem mismatch_rejects_before_caveats_witness :
    Macaroon.verify (fun k d => k ++ d) (fun n : Nat => [n])
        (fun (_ : Nat) (_ : Unit) => (Except.ok () : Except Nat Unit)) ⟨[1], [], [9]⟩ [2] ()
      = .error .InvalidToken :=
  (mismatch_rejects_before_caveats (fun k d => k ++ d) (fun n : Nat => [n])
    (fun _ _ => (Except.ok () : Except Nat Unit)) ⟨[1], [], [9]⟩ [2] () (by decide)).1

/-! ## Caveat evaluation order -/

theorem runCaveats_all_ok (vf : C → Ctx → Except E Unit) (ctx : Ctx) (cs : List C)
    (h : ∀ c ∈ cs, vf c ctx = .ok ()) :
    runCaveats vf ctx cs = (cs, .ok ()) := by
  induction cs with
  | nil => rfl
  | cons c rest ih =>
    simp only [runCaveats, h c (by simp)]
    simp [ih fun c hc => h c (by simp [hc])]

theorem runCaveats_first_error (vf : C → Ctx → Except E Unit) (ctx : Ctx)
    (pre post : List C) (c : C) (e : E)
    (hpre : ∀ x ∈ pre, vf x ctx = .ok ()) (hc : vf c ctx = .error e) :
    runCaveats vf ctx (pre ++ c :: post) = (pre ++ [c], .error e) := by
  induction pre with
  | nil => simp [runCaveats, hc]
  | cons p rest ih =>
    simp only [List.cons_append, runCaveats, hpre p (by simp)]
    simp [ih fun x hx => hpre x (by simp [hx])]

/-- Claim C3: when the stored signature matches the recomputed one, `verify`
invokes each caveat strictly in storage order; if every caveat passes it
returns `Ok(())` having invoked each exactly once in order, and at the first
failing caveat it returns `CaveatFailed` with that caveat error, with no later
caveat evaluated (the instrumented trace is exactly the passing prefix plus
the failing caveat). -/
theorem valid_sig_checks_caveats_in_order (mac : MacFn) (enc : C → Bytes)
    (vf : C → Ctx → Except E Unit) (m : Macaroon C) (key : Bytes) (ctx : Ctx)
    (h : chainSig mac enc key m.id m.caveats = m.sig) :
    ((∀ c ∈ m.caveats, vf c ctx = .ok ()) →
      m.verify mac enc vf key ctx = .ok ()) ∧
    ((∀ c ∈ m.caveats, vf c ctx = .ok ()) →
      m.verifyT mac enc vf key ctx = (m.caveats, .ok ())) ∧
    (∀ pre c post e, m.caveats = pre ++ c :: post →
      (∀ x ∈ pre, vf x ctx = .ok ()) → vf c ctx = .error e →
      m.verifyT mac enc vf key ctx = (pre ++ [c], .error (.CaveatFailed e))) := by
  have hnn : ¬ chainSig mac enc key m.id m.caveats ≠ m.sig := not_not_intro h
  refine ⟨fun hall => ?_, fun hall => ?_, fun pre c post e hsplit hpre hc => ?_⟩
  · have := runCaveats_all_ok vf ctx m.caveats hall
    have ht : tryForEach vf ctx m.caveats = .ok () := by
      rw [← runCaveats_snd_eq, this]
    simp [Macaroon.verify, hnn, ht]
  · simp [Macaroon.verifyT, hnn, runCaveats_all_ok vf ctx m.caveats hall]
  · have hrc := runCaveats_first_error vf ctx pre post c e hpre hc
    simp only [Macaroon.verifyT, if_neg hnn]
    rw [hsplit, hrc]

theorem valid_sig_checks_caveats_in_order_witness :
    Macaroon.verifyT (fun k d => k ++ d) (fun b : Bool => [cond b 1 0])
        (fun (b : Bool) (_ : Unit) => cond b (Except.ok ()) (Except.error 7))
        ⟨[1], [true, false, true],
          chainSig (fun k d => k ++ d) (fun b : Bool => [cond b 1 0]) [2] [1]
            [true, false, true]⟩ [2] ()
      = ([true, false], .error (.CaveatFailed 7)) :=
  (valid_sig_checks_caveats_in_order (fun k d => k ++ d) (fun b : Bool => [cond b 1 0])
    (fun b _ => cond b (Except.ok ()) (Except.error 7))
    ⟨[1], [true, false, true],
      chainSig (fun k d => k ++ d) (fun b : Bool => [cond b 1 0]) [2] [1]
        [true, false, true]⟩ [2] () rfl).2.2
    [true] false [true] 7 rfl
    (by intro x hx; rw [List.mem_singleton] at hx; subst hx; rfl) rfl

/-! ## Wrong-key rejection

The library is generic over the MAC primitive; the wrong-key and
order-sensitivity guarantees of the spec hold for a collision-free MAC
(the idealisation of the pluggable keyed PRF of spec section 4.2), which we
express as injectivity of the two-argument MAC function. -/

theorem foldl_mac_injective (mac : MacFn)
    (hmac : Function.Injective fun p : Bytes × Bytes => mac p.1 p.2)
    (ms : List Bytes) : Function.Injective fun key => ms.foldl mac key := by
  induction ms with
  | nil => intro k1 k2 h; exact h
  | cons m rest ih =>
    intro k1 k2 h
    have h2 : rest.foldl mac (mac k1 m) = rest.foldl mac (mac k2 m) := by
      simpa using h
    have h3 := ih h2
    exact congrArg Prod.fst (@hmac (k1, m) (k2, m) h3)

theorem chainSig_key_injective (mac : MacFn) (enc : C → Bytes)
    (hmac : Function.Injective fun p : Bytes × Bytes => mac p.1 p.2)
    (id : Bytes) (cs : List C) :
    Function.Injective fun key => chainSig mac enc key id cs :=
  foldl_mac_injective mac hmac (id :: cs.map enc)

/-- Claim C4: for a collision-free MAC, verifying a token built with key `K0`
(at creation and every attenuation) using any key `K ≠ K0` returns
`InvalidToken`, for every identifier, caveat sequence and context, even when
every caveat would pass. -/
theorem wrong_key_rejected (mac : MacFn) (enc : C → Bytes)
    (vf : C → Ctx → Except E Unit)
    (hmac : Function.Injective fun p : Bytes × Bytes => mac p.1 p.2)
    (id k0 k : Bytes) (cs : List C) (ctx : Ctx) (hk : k ≠ k0) :
    (buildToken mac enc id k0 cs).verify mac enc vf k ctx = .error .InvalidToken := by
  have hne : chainSig mac enc k id cs ≠ chainSig mac enc k0 id cs :=
    fun h => hk (chainSig_key_injective mac enc hmac id cs h)
  exact (verify_of_sig_ne mac enc vf _ k ctx (by simpa [buildToken_def] using hne)).1

/-- A concrete collision-free MAC used to witness the idealised-MAC
hypotheses: it length-prefixes the key, so the pair (key, data) is
recoverable from the output. -/
def macI : MacFn := fun k d => k.length :: (k ++ d)

theorem macI_injective : Function.Injective fun p : Bytes × Bytes => macI p.1 p.2 := by
  rintro ⟨k1, d1⟩ ⟨k2, d2⟩ h
  simp only [macI, List.cons.injEq] at h
  obtain ⟨hlen, happ⟩ := h
  obtain ⟨hk, hd⟩ := List.append_inj happ hlen
  simp [hk, hd]

theorem wrong_key_rejected_witness :
    (buildToken macI (fun n : Nat => [n]) [0] [1] [5]).verify macI (fun n : Nat => [n])
        (fun (_ : Nat) (_ : Unit) => (Except.ok () : Except Nat Unit)) [2] ()
      = .error .InvalidToken :=
  wrong_key_rejected macI (fun n : Nat => [n])
    (fun _ _ => (Except.ok () : Except Nat Unit))
    macI_injective [0] [1] [2] [5] () (by decide)

/-! ## Determinism of construction -/

/-- Claim C5: the stored signature is a deterministic function of the key, the
identifier and the byte encodings of the caveat sequence: any two tokens built
from the same key and identifier whose caveat sequences encode to the same
bytes (in particular, equal caveat sequences of the same type) carry
byte-identical signatures. -/
theorem signatures_deterministic (mac : MacFn) (enc : C → Bytes) (enc2 : D → Bytes)
    (id key : Bytes) (cs : List C) (ds : List D)
    (h : cs.map enc = ds.map enc2) :
    (buildToken mac enc id key cs).sig = (buildToken mac enc2 id key ds).sig := by
  simp [buildToken_def, chainSig, h]

theorem signatures_deterministic_witness :
    (buildToken (fun k d => k ++ d) (fun n : Nat => [n]) [1] [2] [3, 4]).sig
      = (buildToken (fun k d => k ++ d) (fun p : Nat × Nat => [p.1]) [1] [2]
          [(3, 0), (4, 0)]).sig :=
  signatures_deterministic (fun k d => k ++ d) (fun n : Nat => [n])
    (fun p : Nat × Nat => [p.1]) [1] [2] [3, 4] [(3, 0), (4, 0)] (by decide)

/-! ## Order sensitivity -/

/-- Claim C6: for a collision-free MAC and caveats with distinct encodings,
attenuating `[A, B]` and `[B, A]` from the same key and identifier yields
different signatures, and a token carrying one signature with the other
caveat list fails verification with `InvalidToken` in both directions. -/
theorem order_sensitivity (mac : MacFn) (enc : C → Bytes)
    (vf : C → Ctx → Except E Unit)
    (hmac : Function.Injective fun p : Bytes × Bytes => mac p.1 p.2)
    (id key : Bytes) (A B : C) (ctx : Ctx) (hAB : enc A ≠ enc B) :
    (buildToken mac enc id key [A, B]).sig ≠ (buildToken mac enc id key [B, A]).sig ∧
    Macaroon.verify mac enc vf ⟨id, [B, A], (buildToken mac enc id key [A, B]).sig⟩
        key ctx = .error .InvalidToken ∧
    Macaroon.verify mac enc vf ⟨id, [A, B], (buildToken mac enc id key [B, A]).sig⟩
        key ctx = .error .InvalidToken := by
  have hsig : chainSig mac enc key id [A, B] ≠ chainSig mac enc key id [B, A] := by
    intro h
    simp only [chainSig, List.map_cons, List.map_nil, List.foldl_cons, List.foldl_nil] at h
    have h2 := @hmac (mac (mac key id) (enc A), enc B)
      (mac (mac key id) (enc B), enc A) h
    exact hAB (congrArg Prod.snd h2).symm
  refine ⟨by simpa [buildToken_def] using hsig, ?_, ?_⟩
  · exact (verify_of_sig_ne mac enc vf _ key ctx (by simpa [buildToken_def] using hsig.symm)).1
  · exact (verify_of_sig_ne mac enc vf _ key ctx (by simpa [buildToken_def] using hsig)).1

theorem order_sensitivity_witness :
    (buildToken macI (fun n : Nat => [n]) [0] [1] [3, 4]).sig
      ≠ (buildToken macI (fun n : Nat => [n]) [0] [1] [4, 3]).sig :=
  (order_sensitivity macI (fun n : Nat => [n])
    (fun (_ : Nat) (_ : Unit) => (Except.ok () : Except Nat Unit))
    macI_injective [0] [1] 3 4 () (by decide)).1

/-! ## Totality of construction (claim C8)

`MacHelper::process` calls `new_from_slice(key).expect(...)` and
`attenuate` calls `canonical_json::to_string(..).expect(...)`: both unwrap a
fallible external primitive.  We model those primitives as `Option`-valued
parameters; `none` stands for the panic of the `expect`. -/

/-- Modelled from the spec: the MAC key initialisation
`M::new_from_slice(key)` is external to src (the `hmac` crate); per the spec
(section 4.2) the primitive accepts keys of any length, so initialisation
yields a MAC instance for every key.  `none` models the `expect` panic in
`MacHelper::process` (lib.rs 23-24). -/
def processChecked (macInit : Bytes → Option (Bytes → Bytes)) (key data : Bytes) :
    Option Bytes :=
  (macInit key).map fun f => f data

/-- `Macaroon::new` with the fallible key initialisation made explicit. -/
def newChecked (macInit : Bytes → Option (Bytes → Bytes)) (id key : Bytes) :
    Option (Macaroon C) :=
  (processChecked macInit key id).map fun s => ⟨id, [], s⟩

/-- Modelled from the spec: the canonical JSON serialisation
`canonical_json::to_string(&json!(caveat))` is external to src (the
`canonical_json` crate); per the spec (section 4.1) the canonical encoder is a
total deterministic function of the caveat.  `none` models the `expect` panic
in `attenuate` (lib.rs 72-73). -/
def attenuateChecked (macInit : Bytes → Option (Bytes → Bytes))
    (encOpt : C → Option Bytes) (m : Macaroon C) (c : C) : Option (Macaroon C) :=
  match encOpt c with
  | none => none
  | some bytes =>
    (processChecked macInit m.sig bytes).map fun s => ⟨m.id, m.caveats ++ [c], s⟩

/-- Claim C8: when the MAC primitive initialises on keys of any length and the
canonical encoding of caveats is total (the contracts the spec states for the
external primitives), `new` and `attenuate` never fail: for every identifier,
key, token and caveat they return exactly the token of the total model,
without error or panic. -/
theorem new_attenuate_total (macInit : Bytes → Option (Bytes → Bytes)) (mac : MacFn)
    (encOpt : C → Option Bytes) (enc : C → Bytes)
    (hmi : ∀ k, macInit k = some (mac k)) (henc : ∀ c, encOpt c = some (enc c))
    (id key : Bytes) (m : Macaroon C) (c : C) :
    @newChecked C macInit id key = some (Macaroon.new mac id key) ∧
    attenuateChecked macInit encOpt m c = some (m.attenuate mac enc c) := by
  refine ⟨?_, ?_⟩
  · simp [newChecked, processChecked, hmi, Macaroon.new]
  · simp [attenuateChecked, processChecked, hmi, henc, Macaroon.attenuate]

theorem new_attenuate_total_witness :
    @newChecked Nat (fun k => some fun d => k ++ d) [1] [2]
      = some (Macaroon.new (fun k d => k ++ d) [1] [2]) :=
  (new_attenuate_total (fun k => some fun d => k ++ d) (fun k d => k ++ d)
    (fun n : Nat => some [n]) (fun n : Nat => [n]) (fun _ => rfl) (fun _ => rfl)
    [1] [2] ⟨[1], [], [3]⟩ 0).1

/-! ## Transport codec (util.rs)

`as_base64` serialises the signature with `base64::engine::general_purpose::URL_SAFE`
(URL-safe alphabet, padded); `from_base64` decodes the string and then calls
`GenericArray::from_slice(&bytes).clone()`, which panics when the decoded
length differs from the MAC output size.  We model text as lists of
characters and bytes as naturals below 256. -/

/-- The URL-safe base64 alphabet, `A-Z a-z 0-9 - _`. -/
def b64Alphabet : List Char :=
  ['A', 'B', 'C', 'D', 'E', 'F', 'G', 'H', 'I', 'J', 'K', 'L', 'M',
   'N', 'O', 'P', 'Q', 'R', 'S', 'T', 'U', 'V', 'W', 'X', 'Y', 'Z',
   'a', 'b', 'c', 'd', 'e', 'f', 'g', 'h', 'i', 'j', 'k', 'l', 'm',
   'n', 'o', 'p', 'q', 'r', 's', 't', 'u', 'v', 'w', 'x', 'y', 'z',
   '0', '1', '2', '3', '4', '5', '6', '7', '8', '9', '-', '_']

/-- Character for a six-bit value. -/
def sextetChar (n : Nat) : Char := b64Alphabet.getD n 'A'

/-- Inverse lookup: six-bit value of an alphabet character, `none` for any
character outside the URL-safe alphabet (including the pad `=`). -/
def decChar (c : Char) : Option Nat :=
  if 'A' ≤ c ∧ c ≤ 'Z' then some (c.toNat - 65)
  else if 'a' ≤ c ∧ c ≤ 'z' then some (c.toNat - 97 + 26)
  else if '0' ≤ c ∧ c ≤ '9' then some (c.toNat - 48 + 52)
  else if c = '-' then some 62
  else if c = '_' then some 63
  else none

/-- Padded URL-safe base64 encoding of a byte string (the
`URL_SAFE.encode` of `as_base64`, util.rs 7-16). -/
def b64encode : Bytes → List Char
  | [] => []
  | [b0] => [sextetChar (b0 / 4), sextetChar (b0 % 4 * 16), '=', '=']
  | [b0, b1] =>
    [sextetChar (b0 / 4), sextetChar (b0 % 4 * 16 + b1 / 16),
     sextetChar (b1 % 16 * 4), '=']
  | b0 :: b1 :: b2 :: rest =>
    sextetChar (b0 / 4) :: sextetChar (b0 % 4 * 16 + b1 / 16) ::
    sextetChar (b1 % 16 * 4 + b2 / 64) :: sextetChar (b2 % 64) :: b64encode rest

/-- Padded URL-safe base64 decoding (the `URL_SAFE.decode` of `from_base64`,
util.rs 18-33): requires canonical padding, rejects pad characters anywhere
but at the end, rejects non-zero trailing bits, and rejects inputs whose
length is not a multiple of four. -/
def b64decode : List Char → Option Bytes
  | [] => some []
  | c0 :: c1 :: c2 :: c3 :: rest =>
    match decChar c0, decChar c1 with
    | some s0, some s1 =>
      if c2 = '=' then
        if c3 = '=' ∧ rest = [] then
          if s1 % 16 = 0 then some [s0 * 4 + s1 / 16] else none
        else none
      else
        match decChar c2 with
        | some s2 =>
          if c3 = '=' then
            if rest = [] then
              if s2 % 4 = 0 then some [s0 * 4 + s1 / 16, s1 % 16 * 16 + s2 / 4]
              else none
            else none
          else
            match decChar c3, b64decode rest with
            | some s3, some tl =>
              some ((s0 * 4 + s1 / 16) :: (s1 % 16 * 16 + s2 / 4) ::
                (s2 % 4 * 64 + s3) :: tl)
            | _, _ => none
        | none => none
    | _, _ => none
  | _ => none

/-- Outcome of deserialising a signature field. -/
inductive B64Outcome where
  | ok (bytes : Bytes)
  | decodeError
  | panic
deriving DecidableEq

/-- `from_base64` (util.rs 18-33): base64-decode the string, reporting decode
failures as a serde error; on success, `GenericArray::from_slice(&bytes)`
panics unless the byte length equals the MAC output size `outLen`. -/
def from_base64 (outLen : Nat) (s : List Char) : B64Outcome :=
  match b64decode s with
  | none => .decodeError
  | some bytes => if bytes.length = outLen then .ok bytes else .panic

theorem decChar_sextetChar : ∀ n < 64, decChar (sextetChar n) = some n := by decide

theorem sextetChar_ne_pad : ∀ n < 64, sextetChar n ≠ '=' := by decide

theorem b64_roundtrip : ∀ bs : Bytes, (∀ b ∈ bs, b < 256) →
    b64decode (b64encode bs) = some bs
  | [], _ => rfl
  | [b0], hb => by
    have h0 : b0 < 256 := hb b0 (by simp)
    have e0 := decChar_sextetChar (b0 / 4) (by omega)
    have e1 := decChar_sextetChar (b0 % 4 * 16) (by omega)
    simp only [b64encode, b64decode, e0, e1, Nat.mul_mod_left, if_true]
    rw [if_pos (⟨trivial, trivial⟩ : True ∧ True)]
    simp only [Option.some.injEq, List.cons.injEq, and_true, true_and]
    omega
  | [b0, b1], hb => by
    have h0 : b0 < 256 := hb b0 (by simp)
    have h1 : b1 < 256 := hb b1 (by simp)
    have e0 := decChar_sextetChar (b0 / 4) (by omega)
    have e1 := decChar_sextetChar (b0 % 4 * 16 + b1 / 16) (by omega)
    have e2 := decChar_sextetChar (b1 % 16 * 4) (by omega)
    have hne := sextetChar_ne_pad (b1 % 16 * 4) (by omega)
    simp only [b64encode, b64decode, e0, e1, e2, if_neg hne, Nat.mul_mod_left,
      if_true]
    simp only [Option.some.injEq, List.cons.injEq, and_true, true_and]
    omega
  | b0 :: b1 :: b2 :: rest, hb => by
    have h0 : b0 < 256 := hb b0 (by simp)
    have h1 : b1 < 256 := hb b1 (by simp)
    have h2 : b2 < 256 := hb b2 (by simp)
    have ih := b64_roundtrip rest fun b h => hb b (by simp [h])
    have e0 := decChar_sextetChar (b0 / 4) (by omega)
    have e1 := decChar_sextetChar (b0 % 4 * 16 + b1 / 16) (by omega)
    have e2 := decChar_sextetChar (b1 % 16 * 4 + b2 / 64) (by omega)
    have e3 := decChar_sextetChar (b2 % 64) (by omega)
    have hne2 := sextetChar_ne_pad (b1 % 16 * 4 + b2 / 64) (by omega)
    have hne3 := sextetChar_ne_pad (b2 % 64) (by omega)
    simp only [b64encode, b64decode, e0, e1, e2, e3, ih, if_neg hne2, if_neg hne3]
    simp only [Option.some.injEq, List.cons.injEq, and_true, true_and]
    refine ⟨by omega, by omega, by omega⟩

/-- The serialised envelope of `Macaroon<C, M>` (lib.rs 48-60): the
identifier, the caveat list (serialised generically by serde) and the
signature as base64 text. -/
structure Envelope (C : Type) where
  id : Bytes
  caveats : List C
  sigText : List Char

/-- Serialisation of a token: identifier and caveats pass through serde, the
signature goes through `as_base64` (util.rs 7-16). -/
def serializeM (m : Macaroon C) : Envelope C :=
  ⟨m.id, m.caveats, b64encode m.sig⟩

/-- Outcome of deserialising an envelope. -/
inductive DeserResult (C : Type) where
  | ok (m : Macaroon C)
  | decodeError
  | panic

/-- Deserialisation of an envelope: the signature field goes through
`from_base64` with the MAC output size `outLen` (util.rs 18-33). -/
def deserializeM (outLen : Nat) (e : Envelope C) : DeserResult C :=
  match from_base64 outLen e.sigText with
  | .ok bytes => .ok ⟨e.id, e.caveats, bytes⟩
  | .decodeError => .decodeError
  | .panic => .panic

/-- Claim C7: serialising a token whose signature has the MAC output length to
the envelope and deserialising it back succeeds and returns a token whose
`verify` result under any key and context is identical to that of the
original token. -/
theorem roundtrip_preserves_verify (Ctx2 E2 : Type) (m : Macaroon C) (outLen : Nat)
    (hlen : m.sig.length = outLen) (hb : ∀ b ∈ m.sig, b < 256) :
    deserializeM outLen (serializeM m) = .ok m ∧
    ∀ m2 : Macaroon C, deserializeM outLen (serializeM m) = .ok m2 →
      ∀ (mac : MacFn) (enc : C → Bytes) (vf : C → Ctx2 → Except E2 Unit)
        (key : Bytes) (ctx : Ctx2),
        m2.verify mac enc vf key ctx = m.verify mac enc vf key ctx := by
  have hrt : deserializeM outLen (serializeM m) = .ok m := by
    simp [deserializeM, serializeM, from_base64, b64_roundtrip m.sig hb, hlen]
  refine ⟨hrt, fun m2 hm2 => ?_⟩
  rw [hrt] at hm2
  cases hm2
  intro mac enc vf key ctx
  rfl

theorem roundtrip_preserves_verify_witness :
    deserializeM 2 (serializeM (⟨[1], [5], [7, 8]⟩ : Macaroon Nat)) = .ok ⟨[1], [5], [7, 8]⟩ :=
  (roundtrip_preserves_verify Unit Nat ⟨[1], [5], [7, 8]⟩ 2 rfl (by decide)).1

/-- Claim C9 evaluation: with the 64-byte output of `Hmac<Sha512>`, the valid
base64 text `AAAA` decodes to three bytes and `GenericArray::from_slice`
panics instead of returning a decode error, while text that is not valid
base64, such as the single character `A`, is reported as a decode error. -/
theorem wrong_length_signature_panics :
    from_base64 64 ['A', 'A', 'A', 'A'] = .panic ∧
    from_base64 64 ['A'] = .decodeError := by
  exact ⟨rfl, rfl⟩

end Rustmacaroon
